import Mathlib

/-!
Verification of the text-chunking and lexical-relevance core of the
simple-build-bot repository, against its natural-language specification.

The embedding models JavaScript strings as `List Char` and translates the
relevant source functions directly:

* `chunkText` — `supabase/functions/process-document/index.ts` and
  `src/components/DocumentUpload.tsx` (the two copies are identical):
  a `while` loop over a start offset, emitting `text.slice(start, end)`
  windows with `end = Math.min(start + chunkSize, text.length)` and stepping
  `start = end - overlap`.  The loop is embedded with explicit fuel, since
  for invalid parameters the source loop does not terminate; `none` means
  the fuel ran out.
* `findRelevantContent` — `src/components/ChatInterface.tsx`: keyword
  filtering of sentences split on `[.!?]+`, with a 300-character fallback.
* `buildSystemContent` — `supabase/functions/chat-completion/index.ts`:
  assembly of the system prompt from the document context.
-/

namespace SimpleBuildBot

/-- JavaScript `Math.min` over numbers, at integer type. -/
def mathMin (a b : Int) : Int := min a b

/-- JavaScript `String.prototype.slice(start, end)` over a character list:
negative indices count from the end, and both indices are clamped to
`[0, length]`. -/
def jsSlice (l : List Char) (start stop : Int) : List Char :=
  let len : Int := l.length
  let s : Int := if start < 0 then max (len + start) 0 else min start len
  let e : Int := if stop < 0 then max (len + stop) 0 else min stop len
  (l.take e.toNat).drop s.toNat

/-- The body of `chunkText`, fueled.  One fuel unit is one iteration of the
source `while (start < text.length)` loop; `none` means the fuel was
exhausted, which is how the embedding renders non-termination of the
source loop. -/
def chunkLoop : Nat → List Char → Int → Int → Int → List (List Char) →
    Option (List (List Char))
  | 0, _, _, _, _, _ => none
  | fuel + 1, text, chunkSize, overlap, start, acc =>
    if start < (text.length : Int) then
      let e := mathMin (start + chunkSize) (text.length : Int)
      let chunk := jsSlice text start e
      if e = (text.length : Int) then some (acc ++ [chunk])
      else chunkLoop fuel text chunkSize overlap (e - overlap) (acc ++ [chunk])
    else some acc

/-- `chunkText(text, chunkSize, overlap)` from
`supabase/functions/process-document/index.ts` (identical in
`src/components/DocumentUpload.tsx`).  `text.length + 1` units of fuel are
enough for every terminating run of the source loop, because each iteration
either finishes or strictly advances `start` inside `[0, text.length)`. -/
def chunkText (text : List Char) (chunkSize overlap : Int) :
    Option (List (List Char)) :=
  chunkLoop (text.length + 1) text chunkSize overlap 0 []

/-- The chunk windows `(start, end)` the source loop visits, as a structural
recursion usable in proofs.  `spans size overlap L start` lists the window
of each iteration begun at offset `start` over a text of length `L`; the
guard `overlap < size` makes the recursion well-founded and is satisfied
whenever the parameters are valid. -/
def spans (size overlap L start : Nat) : List (Nat × Nat) :=
  if _h : start < L ∧ overlap < size then
    if _h2 : min (start + size) L = L then [(start, min (start + size) L)]
    else (start, min (start + size) L) ::
      spans size overlap L (min (start + size) L - overlap)
  else []
termination_by L - start
decreasing_by simp_wf; omega

/-- The text of the window `p` of `text`. -/
def chunkSlice (text : List Char) (p : Nat × Nat) : List Char :=
  (text.drop p.1).take (p.2 - p.1)

/-- The chunk list of `text`, via the structural window list. -/
def chunksOf (size overlap : Nat) (text : List Char) : List (List Char) :=
  (spans size overlap text.length 0).map (chunkSlice text)

/-- Concatenation of a chunk list with the `o`-character overlap prefix of
every chunk after the first removed. -/
def glue (o : Nat) : List (List Char) → List Char
  | [] => []
  | c :: cs => c ++ (cs.map (List.drop o)).flatten


/-! ## RelevanceSelector embedding: `findRelevantContent` of
`src/components/ChatInterface.tsx` -/

/-- JavaScript `String.prototype.toLowerCase` on the ASCII text this
repository handles. -/
def lowerStr (l : List Char) : List Char := l.map Char.toLower

/-- JavaScript `str.split(sep)` for a single-character separator: every
occurrence of `sep` is a split point, empty pieces are kept. -/
def jsSplitChar (sep : Char) : List Char → List (List Char)
  | [] => [[]]
  | c :: rest =>
    if c = sep then [] :: jsSplitChar sep rest
    else
      match jsSplitChar sep rest with
      | [] => [[c]]
      | s :: ss => (c :: s) :: ss

/-- The character class `[.!?]` of the sentence-splitting regex. -/
def isSentenceDelim (c : Char) : Bool := c = '.' || c = '!' || c = '?'

/-- Body of `jsSplitDelims`, structurally recursive on a fuel argument.
One fuel unit covers at least one consumed character, so
`splitDelimsAux l.length l` never exhausts its fuel. -/
def splitDelimsAux : Nat → List Char → List (List Char)
  | _, [] => [[]]
  | 0, _ :: _ => [[]]
  | fuel + 1, c :: rest =>
    if isSentenceDelim c then
      [] :: splitDelimsAux fuel (rest.dropWhile isSentenceDelim)
    else
      match splitDelimsAux fuel rest with
      | [] => [[c]]
      | s :: ss => (c :: s) :: ss

/-- JavaScript `str.split(/[.!?]+/)`: a maximal run of delimiters is one
split point; empty pieces at the ends are kept. -/
def jsSplitDelims (l : List Char) : List (List Char) :=
  splitDelimsAux l.length l

/-- JavaScript `hay.includes(needle)`: substring containment. -/
def jsIncludes (hay needle : List Char) : Bool :=
  needle.isPrefixOf hay ||
    match hay with
    | [] => false
    | _ :: t => jsIncludes t needle

/-- `question.toLowerCase().split(' ').filter(word => word.length > 3)` from
`findRelevantContent`. -/
def keywords (question : List Char) : List (List Char) :=
  (jsSplitChar ' ' (lowerStr question)).filter (fun w => 3 < w.length)

/-- `documentContext.split(/[.!?]+/)` from `findRelevantContent`. -/
def sentencesOf (documentContext : List Char) : List (List Char) :=
  jsSplitDelims documentContext

/-- `keywords.some(keyword => sentence.toLowerCase().includes(keyword))`. -/
def sentenceMatches (question sentence : List Char) : Bool :=
  (keywords question).any (fun keyword => jsIncludes (lowerStr sentence) keyword)

/-- `sentences.filter(sentence => keywords.some(...))`. -/
def relevantSentences (question documentContext : List Char) :
    List (List Char) :=
  (sentencesOf documentContext).filter (sentenceMatches question)

/-- `findRelevantContent(question, documentContext)` from
`src/components/ChatInterface.tsx`: join the first three matching sentences
with `'. '` and a final `'.'`, or fall back to the first 300 characters of
the whole context followed by `'...'`. -/
def findRelevantContent (question documentContext : List Char) : List Char :=
  let relevant := relevantSentences question documentContext
  if relevant.length > 0 then
    List.intercalate (String.toList ". ") (relevant.take 3) ++ ['.']
  else
    documentContext.take 300 ++ String.toList "..."

/-- The per-file blocks `Document: ${file.name}\nContent: ${file.content}`
joined with `'\n\n---\n\n'`, from `handleSubmit` in
`src/components/ChatInterface.tsx`; this is the `documentContext` string
handed to `findRelevantContent`. -/
def buildDocumentContext (files : List (List Char × List Char)) : List Char :=
  List.intercalate (String.toList "\n\n---\n\n")
    (files.map (fun f =>
      String.toList "Document: " ++ f.1 ++ String.toList "\nContent: " ++ f.2))

/-- Modelled from the spec: the relevance score the specification assigns a
sentence, `matched_keyword_count / total_keyword_count`.  The source
computes no score at all, so this definition follows the specification
words and is used to state the ordering the specification claims. -/
def specScore (question sentence : List Char) : ℚ :=
  (((keywords question).filter
      (fun keyword => jsIncludes (lowerStr sentence) keyword)).length : ℚ)
    / ((keywords question).length : ℚ)

example : keywords (String.toList "what color is grass") =
    [String.toList "what", String.toList "color", String.toList "grass"] := by
  decide

example : sentencesOf (String.toList "a. b! c") =
    [String.toList "a", String.toList " b", String.toList " c"] := by decide

example : sentencesOf (String.toList "ab") = [String.toList "ab"] := by decide

example : jsIncludes (String.toList "evergreen") (String.toList "green")
    = true := by decide

/-! ## ContextAssembler embedding: the system prompt of
`supabase/functions/chat-completion/index.ts` and the no-documents reply of
`src/components/ChatInterface.tsx` -/

/-- The base system prompt of `chat-completion/index.ts`. -/
def systemPromptBase : String :=
  "You are a helpful AI assistant that answers questions based on uploaded documents. \n    \n    IMPORTANT INSTRUCTIONS:\n    1. ALWAYS use the provided document context to answer questions\n    2. If the user asks about a document, analyze the content thoroughly\n    3. Provide specific, detailed answers based on the document content\n    4. Quote relevant sections from the documents when appropriate\n    5. If you cannot find relevant information in the provided context, say so clearly\n    6. Be helpful and informative, but always base your responses on the document content\n    \n    Your responses should demonstrate that you have read and understood the uploaded documents."

/-- The header prepended to the joined document context. -/
def documentContextHeader : String :=
  "\n\nDOCUMENT CONTEXT (Use this information to answer questions):\n"

/-- The placeholder appended when no document context was provided. -/
def noDocumentsNote : String :=
  "\n\nNo documents have been uploaded yet. Please ask the user to upload documents first."

/-- `systemContent` as built by `chat-completion/index.ts`:
`documentContext && documentContext.length > 0` guards the context block,
so a missing (`none`) or empty context takes the placeholder branch. -/
def buildSystemContent (documentContext : Option (List String)) : String :=
  match documentContext with
  | some blocks =>
    if blocks.length > 0 then
      systemPromptBase ++ documentContextHeader
        ++ String.intercalate "\n\n---\n\n" blocks
    else systemPromptBase ++ noDocumentsNote
  | none => systemPromptBase ++ noDocumentsNote

/-- The reply `handleSubmit` in `src/components/ChatInterface.tsx` produces
when `completedFiles.length === 0`. -/
def noDocumentsResponse : String :=
  "I don't have any documents to work with yet. Please upload some documents first, and I'll be able to answer questions about their content."

example : chunkText (String.toList "abcdefgh") 3 1 =
    some [String.toList "abc", String.toList "cde", String.toList "efg",
      String.toList "gh"] := by decide

example : chunkText (String.toList "ab") 0 0 = none := by decide

/-- Unfolding lemma for `spans` in the valid-parameter, final-window case. -/
lemma spans_last (size overlap L start : Nat) (h1 : start < L)
    (h2 : overlap < size) (h3 : L ≤ start + size) :
    spans size overlap L start = [(start, L)] := by
  rw [spans]
  rw [dif_pos ⟨h1, h2⟩, dif_pos (by omega)]
  congr 2
  omega

/-- Unfolding lemma for `spans` in the valid-parameter, middle-window case. -/
lemma spans_step (size overlap L start : Nat) (h1 : start < L)
    (h2 : overlap < size) (h3 : start + size < L) :
    spans size overlap L start =
      (start, start + size) :: spans size overlap L (start + size - overlap) := by
  rw [spans]
  rw [dif_pos ⟨h1, h2⟩, dif_neg (by omega)]
  congr 2 <;> omega

/-- Unfolding lemma for `spans` past the end of the text. -/
lemma spans_stop (size overlap L start : Nat) (h1 : L ≤ start) :
    spans size overlap L start = [] := by
  rw [spans]
  rw [dif_neg (by omega)]

/-- For in-range natural indices the JavaScript slice is drop-then-take. -/
lemma jsSlice_nat (l : List Char) (a b : Nat) (ha : a ≤ l.length)
    (hb : b ≤ l.length) :
    jsSlice l (a : Int) (b : Int) = (l.drop a).take (b - a) := by
  unfold jsSlice
  have h1 : ¬ ((a : Int) < 0) := by omega
  have h2 : ¬ ((b : Int) < 0) := by omega
  simp only [h1, if_false, h2]
  have h3 : min (a : Int) (l.length : Int) = (a : Int) := by omega
  have h4 : min (b : Int) (l.length : Int) = (b : Int) := by omega
  rw [h3, h4, Int.toNat_ofNat, Int.toNat_ofNat, List.drop_take]

/-- The source loop, run with enough fuel from a valid in-range state,
returns the accumulated chunks followed by the slices of the structural
window list.  This is the bridge between the fueled embedding of
`chunkText` and the `spans` recursion the proofs use. -/
lemma chunkLoop_eq_spans (size overlap : Nat) (_hs : 0 < size)
    (ho : overlap < size) (text : List Char) :
    ∀ fuel start acc, start < text.length → text.length - start < fuel →
    chunkLoop fuel text (size : Int) (overlap : Int) (start : Int) acc
      = some (acc ++ (spans size overlap text.length start).map
          (chunkSlice text)) := by
  intro fuel
  induction fuel with
  | zero => intro start acc h1 h2; omega
  | succ n ih =>
    intro start acc h1 h2
    rw [chunkLoop]
    rw [if_pos (by exact_mod_cast h1)]
    have hmin : mathMin ((start : Int) + (size : Int)) ((text.length : Int))
        = ((min (start + size) text.length : Nat) : Int) := by
      unfold mathMin; omega
    by_cases hend : text.length ≤ start + size
    · -- final window: the slice ends at the end of the text and the loop stops
      have he : mathMin ((start : Int) + (size : Int)) ((text.length : Int))
          = ((text.length : Int)) := by unfold mathMin; omega
      rw [he, if_pos rfl, spans_last size overlap text.length start h1 ho hend]
      rw [jsSlice_nat text start text.length (by omega) (by omega)]
      simp [chunkSlice]
    · -- middle window: the loop recurses at `start + size - overlap`
      push_neg at hend
      have he : mathMin ((start : Int) + (size : Int)) ((text.length : Int))
          = (((start + size : Nat) : Int)) := by unfold mathMin; omega
      rw [he, if_neg (by exact_mod_cast (by omega : ¬ (start + size = text.length)))]
      have harg : ((start + size : Nat) : Int) - (overlap : Int)
          = (((start + size - overlap : Nat) : Int)) := by omega
      rw [harg, ih (start + size - overlap) _ (by omega) (by omega)]
      rw [spans_step size overlap text.length start h1 ho hend]
      rw [jsSlice_nat text start (start + size) (by omega) (by omega)]
      simp [chunkSlice]

/-- For valid parameters `chunkText` terminates within its fuel bound and
returns exactly the chunks of the structural window list. -/
lemma chunkText_eq_chunksOf (text : List Char) (size overlap : Nat)
    (hs : 0 < size) (ho : overlap < size) :
    chunkText text (size : Int) (overlap : Int) =
      some (chunksOf size overlap text) := by
  unfold chunkText chunksOf
  rcases Nat.eq_zero_or_pos text.length with hL | hL
  · rw [chunkLoop]
    rw [if_neg (by omega), spans_stop size overlap text.length 0 (by omega)]
    simp
  · have := chunkLoop_eq_spans size overlap hs ho text (text.length + 1) 0 []
      hL (by omega)
    simpa using this

/-- Dropping the overlap prefix of every window slice from offset `start`
and concatenating recovers the text from offset `start + overlap` on. -/
lemma spans_drop_flatten (size overlap : Nat) (_hs : 0 < size)
    (ho : overlap < size) (text : List Char) :
    ∀ start, start < text.length →
    ((spans size overlap text.length start).map
        (fun p => (chunkSlice text p).drop overlap)).flatten
      = text.drop (start + overlap) := by
  suffices H : ∀ m start, text.length - start = m → start < text.length →
      ((spans size overlap text.length start).map
        (fun p => (chunkSlice text p).drop overlap)).flatten
      = text.drop (start + overlap) by
    intro start h1
    exact H (text.length - start) start rfl h1
  intro m
  induction m using Nat.strong_induction_on with
  | _ m ih =>
  intro start hwf h1
  subst hwf
  by_cases hend : text.length ≤ start + size
  · rw [spans_last size overlap text.length start h1 ho hend]
    simp only [List.map_cons, List.map_nil, List.flatten_cons, List.flatten_nil,
      List.append_nil, chunkSlice]
    rw [List.take_of_length_le (by simp), List.drop_drop]
  · push_neg at hend
    rw [spans_step size overlap text.length start h1 ho hend]
    simp only [List.map_cons, List.flatten_cons]
    rw [ih (text.length - (start + size - overlap)) (by omega)
      (start + size - overlap) rfl (by omega)]
    simp only [chunkSlice]
    rw [List.drop_take, List.drop_drop]
    have h2 : start + size - overlap + overlap = start + size := by omega
    have h3 : start + size - start - overlap = size - overlap := by omega
    have h5 : (text.drop (start + overlap)).drop (size - overlap)
        = text.drop (start + overlap + (size - overlap)) := by
      rw [List.drop_drop]
    rw [h2, h3, (by omega : start + size = start + overlap + (size - overlap)),
      ← h5]
    exact List.take_append_drop _ _

/-- Gluing the window slices from offset `start` recovers the text from
offset `start` on. -/
lemma glue_spans (size overlap : Nat) (hs : 0 < size) (ho : overlap < size)
    (text : List Char) (start : Nat) (h1 : start < text.length) :
    glue overlap ((spans size overlap text.length start).map
      (chunkSlice text)) = text.drop start := by
  by_cases hend : text.length ≤ start + size
  · rw [spans_last size overlap text.length start h1 ho hend]
    simp only [List.map_cons, List.map_nil, glue, List.flatten_nil,
      List.append_nil, chunkSlice]
    exact List.take_of_length_le (by simp)
  · push_neg at hend
    rw [spans_step size overlap text.length start h1 ho hend]
    simp only [List.map_cons, glue, chunkSlice]
    rw [List.map_map]
    have hcomp : (List.drop overlap ∘ chunkSlice text)
        = fun p => (chunkSlice text p).drop overlap := rfl
    rw [hcomp]
    rw [spans_drop_flatten size overlap hs ho text (start + size - overlap)
      (by omega)]
    have h2 : start + size - overlap + overlap = start + size := by omega
    rw [h2]
    have h3 : (start + size) - start = size := by omega
    rw [h3]
    calc (text.drop start).take size ++ text.drop (start + size)
      _ = (text.drop start).take size ++ (text.drop start).drop size := by
            rw [List.drop_drop, Nat.add_comm start size]
      _ = text.drop start := List.take_append_drop _ _

/-- The window list is empty exactly on empty text (valid parameters). -/
lemma spans_eq_nil_iff (size overlap L : Nat) (ho : overlap < size) :
    spans size overlap L 0 = [] ↔ L = 0 := by
  constructor
  · intro h
    by_contra hL
    rw [spans] at h
    rw [dif_pos ⟨by omega, ho⟩] at h
    by_cases h2 : min (0 + size) L = L
    · rw [dif_pos h2] at h; cases h
    · rw [dif_neg h2] at h; cases h
  · intro h
    exact spans_stop size overlap L 0 (by omega)

/-- Number of windows that start at or after `start`, in closed form. -/
lemma spans_length (size overlap : Nat) (hs : 0 < size)
    (ho : overlap < size) (L : Nat) :
    ∀ start, start + overlap < L →
    (spans size overlap L start).length
      = (L - start - overlap + (size - overlap) - 1) / (size - overlap) := by
  suffices H : ∀ m start, L - start = m → start + overlap < L →
      (spans size overlap L start).length
      = (L - start - overlap + (size - overlap) - 1) / (size - overlap) by
    intro start h1
    exact H (L - start) start rfl h1
  intro m
  induction m using Nat.strong_induction_on with
  | _ m ih =>
  intro start hwf h1
  subst hwf
  by_cases hend : L ≤ start + size
  · rw [spans_last size overlap L start (by omega) ho hend]
    simp only [List.length_cons, List.length_nil, Nat.zero_add]
    have hA : 1 * (size - overlap) ≤ L - start - overlap + (size - overlap) - 1 := by
      omega
    have hB : L - start - overlap + (size - overlap) - 1
        < (1 + 1) * (size - overlap) := by omega
    rw [Nat.div_eq_of_lt_le hA hB]
  · push_neg at hend
    rw [spans_step size overlap L start (by omega) ho hend]
    simp only [List.length_cons]
    rw [ih (L - (start + size - overlap)) (by omega)
      (start + size - overlap) rfl (by omega)]
    have h2 : L - start - overlap + (size - overlap) - 1
        = (L - (start + size - overlap) - overlap + (size - overlap) - 1)
          + (size - overlap) := by omega
    rw [h2, Nat.add_div_right _ (by omega)]

/-- Every window is nonempty and ends within the text. -/
lemma spans_mem_bounds (size overlap : Nat) (ho : overlap < size) (L : Nat) :
    ∀ start, ∀ p ∈ spans size overlap L start, p.1 < p.2 ∧ p.2 ≤ L := by
  suffices H : ∀ m start, L - start = m →
      ∀ p ∈ spans size overlap L start, p.1 < p.2 ∧ p.2 ≤ L by
    intro start
    exact H (L - start) start rfl
  intro m
  induction m using Nat.strong_induction_on with
  | _ m ih =>
  intro start hwf p hp
  subst hwf
  by_cases h1 : start < L
  · by_cases hend : L ≤ start + size
    · rw [spans_last size overlap L start h1 ho hend] at hp
      simp at hp
      subst hp
      exact ⟨h1, le_refl L⟩
    · push_neg at hend
      rw [spans_step size overlap L start h1 ho hend] at hp
      rcases List.mem_cons.mp hp with h | h
      · subst h
        refine ⟨?_, ?_⟩ <;> simp <;> omega
      · exact ih (L - (start + size - overlap)) (by omega)
          (start + size - overlap) rfl p h
  · rw [spans_stop size overlap L start (by omega)] at hp
    cases hp

/-- From an in-range start the window list is nonempty. -/
lemma spans_ne_nil (size overlap L start : Nat) (h1 : start < L)
    (ho : overlap < size) : spans size overlap L start ≠ [] := by
  by_cases hend : L ≤ start + size
  · rw [spans_last size overlap L start h1 ho hend]; simp
  · push_neg at hend
    rw [spans_step size overlap L start h1 ho hend]; simp

/-- The first window starts at `start`. -/
lemma spans_head? (size overlap L start : Nat) (h1 : start < L)
    (ho : overlap < size) :
    (spans size overlap L start).head? = some (start, min (start + size) L) := by
  by_cases hend : L ≤ start + size
  · rw [spans_last size overlap L start h1 ho hend]
    simp
    omega
  · push_neg at hend
    rw [spans_step size overlap L start h1 ho hend]
    simp
    omega

/-- Consecutive windows: the next window starts `overlap` characters before
the previous window's end, one stride of `size - overlap` after the
previous window's start, and every window but the last ends strictly inside
the text. -/
lemma spans_chain (size overlap : Nat) (ho : overlap < size) (L : Nat) :
    ∀ start, List.Chain'
      (fun p q => q.1 = p.2 - overlap ∧ q.1 = p.1 + (size - overlap) ∧ p.2 < L)
      (spans size overlap L start) := by
  suffices H : ∀ m start, L - start = m → List.Chain'
      (fun p q => q.1 = p.2 - overlap ∧ q.1 = p.1 + (size - overlap) ∧ p.2 < L)
      (spans size overlap L start) by
    intro start
    exact H (L - start) start rfl
  intro m
  induction m using Nat.strong_induction_on with
  | _ m ih =>
  intro start hwf
  subst hwf
  by_cases h1 : start < L
  · by_cases hend : L ≤ start + size
    · rw [spans_last size overlap L start h1 ho hend]
      simp
    · push_neg at hend
      rw [spans_step size overlap L start h1 ho hend]
      rw [List.chain'_cons']
      refine ⟨?_, ih (L - (start + size - overlap)) (by omega)
        (start + size - overlap) rfl⟩
      intro q hq
      rw [spans_head? size overlap L (start + size - overlap) (by omega) ho]
        at hq
      simp at hq
      subst hq
      refine ⟨?_, ?_, ?_⟩ <;> simp <;> omega
  · rw [spans_stop size overlap L start (by omega)]
    simp

/-- The last window ends exactly at the end of the text. -/
lemma spans_getLast? (size overlap : Nat) (ho : overlap < size) (L : Nat) :
    ∀ start, start < L → ∃ p, (spans size overlap L start).getLast? = some p
      ∧ p.2 = L := by
  suffices H : ∀ m start, L - start = m → start < L →
      ∃ p, (spans size overlap L start).getLast? = some p ∧ p.2 = L by
    intro start h1
    exact H (L - start) start rfl h1
  intro m
  induction m using Nat.strong_induction_on with
  | _ m ih =>
  intro start hwf h1
  subst hwf
  by_cases hend : L ≤ start + size
  · rw [spans_last size overlap L start h1 ho hend]
    exact ⟨(start, L), rfl, rfl⟩
  · push_neg at hend
    rw [spans_step size overlap L start h1 ho hend]
    obtain ⟨p, hp, hpL⟩ := ih (L - (start + size - overlap)) (by omega)
      (start + size - overlap) rfl (by omega)
    have hne := spans_ne_nil size overlap L (start + size - overlap)
      (by omega) ho
    rw [List.getLast?_eq_getLast _ hne] at hp
    refine ⟨p, ?_, hpL⟩
    rw [List.getLast?_eq_getLast _ (List.cons_ne_nil _ _),
      List.getLast_cons hne]
    exact hp

/-! ## Claim theorems: the Chunker -/

/-- Claim C2 (corrected).  `chunkText` performs no parameter validation and
never fails with an `InvalidParameter` error: on size 0 and overlap 0 over
the nonempty text `"ab"` the source loop never returns for any amount of
fuel (it does not fail fast), while for every `size > 0` and
`0 ≤ overlap < size` it returns a normal chunk list. -/
theorem chunkText_no_parameter_validation :
    (∀ fuel acc, chunkLoop fuel ['a', 'b'] 0 0 0 acc = none)
    ∧ (∀ (text : List Char) (size overlap : Nat), 0 < size → overlap < size →
        chunkText text (size : Int) (overlap : Int)
          = some (chunksOf size overlap text)) := by
  constructor
  · intro fuel
    induction fuel with
    | zero => intro acc; rfl
    | succ n ih =>
      intro acc
      rw [chunkLoop]
      norm_num [mathMin]
      exact ih _
  · intro text size overlap hs ho
    exact chunkText_eq_chunksOf text size overlap hs ho

/-- Witness for claim C2's theorem at fuel 5 and at text `"a"`, size 2,
overlap 1. -/
theorem chunkText_no_parameter_validation_witness :
    chunkLoop 5 ['a', 'b'] 0 0 0 [] = none
    ∧ chunkText (String.toList "a") ((2 : Nat) : Int) ((1 : Nat) : Int)
      = some (chunksOf 2 1 (String.toList "a")) :=
  ⟨chunkText_no_parameter_validation.1 5 [],
    chunkText_no_parameter_validation.2 (String.toList "a") 2 1
      (by decide) (by decide)⟩

/-- Counterexample to claim C2 as stated: with size 0 and overlap 0 on the
text `"ab"` the source never fails with `InvalidParameter` — it produces no
result at all, both at the canonical fuel bound and at fuel 100. -/
theorem chunkText_invalid_parameter_counterexample :
    chunkText (String.toList "ab") 0 0 = none
    ∧ chunkLoop 100 (String.toList "ab") 0 0 0 [] = none := by
  constructor <;> decide

/-- Claim C3 (corrected).  For valid parameters and text strictly longer
than the overlap, the number of chunks is
`⌈(len(T) - overlap) / (size - overlap)⌉`, here written with natural
division as `(len(T) - overlap + (size - overlap) - 1) / (size - overlap)`. -/
theorem chunkText_count (text : List Char) (size overlap : Nat)
    (hs : 0 < size) (ho : overlap < size) (hL : overlap < text.length) :
    chunkText text (size : Int) (overlap : Int)
      = some (chunksOf size overlap text)
    ∧ (chunksOf size overlap text).length
      = (text.length - overlap + (size - overlap) - 1) / (size - overlap) := by
  refine ⟨chunkText_eq_chunksOf text size overlap hs ho, ?_⟩
  unfold chunksOf
  rw [List.length_map, spans_length size overlap hs ho text.length 0 (by omega)]
  norm_num

/-- Witness for claim C3's theorem at text `"abcdefgh"`, size 3,
overlap 1: 8 characters give `(8 - 1 + 2 - 1) / 2 = 4` chunks. -/
theorem chunkText_count_witness :
    chunkText (String.toList "abcdefgh") ((3 : Nat) : Int) ((1 : Nat) : Int)
      = some (chunksOf 3 1 (String.toList "abcdefgh"))
    ∧ (chunksOf 3 1 (String.toList "abcdefgh")).length
      = ((String.toList "abcdefgh").length - 1 + (3 - 1) - 1) / (3 - 1) :=
  chunkText_count (String.toList "abcdefgh") 3 1 (by decide) (by decide)
    (by decide)

/-- Counterexample to claim C3 as stated: for the one-character text `"a"`
with size 2 and overlap 1 the formula `⌈(len - overlap) / (size - overlap)⌉`
gives 0, but the code returns one chunk. -/
theorem chunkText_count_counterexample :
    chunkText (String.toList "a") 2 1 = some [String.toList "a"]
    ∧ ((1 : Int) ≠ ⌈(((1 : ℚ) - 1) / ((2 : ℚ) - 1))⌉) := by
  refine ⟨by decide, ?_⟩
  norm_num

/-- Claim C4.  For every text and valid `(size, overlap)`, concatenating
the chunks of `chunkText` with the `overlap`-character prefix of every
chunk after the first removed reconstructs the text exactly, and the chunk
sequence is empty iff the text is empty. -/
theorem chunkText_coverage (text : List Char) (size overlap : Nat)
    (hs : 0 < size) (ho : overlap < size) :
    chunkText text (size : Int) (overlap : Int)
      = some (chunksOf size overlap text)
    ∧ glue overlap (chunksOf size overlap text) = text
    ∧ (chunksOf size overlap text = [] ↔ text = []) := by
  refine ⟨chunkText_eq_chunksOf text size overlap hs ho, ?_, ?_⟩
  · rcases Nat.eq_zero_or_pos text.length with hL | hL
    · have htext : text = [] := List.length_eq_zero.mp hL
      subst htext
      rw [chunksOf, spans_stop size overlap _ 0 (by simp)]
      rfl
    · unfold chunksOf
      rw [glue_spans size overlap hs ho text 0 hL]
      exact List.drop_zero text
  · unfold chunksOf
    rw [List.map_eq_nil_iff, spans_eq_nil_iff size overlap text.length ho,
      List.length_eq_zero]

/-- Witness for claim C4's theorem at text `"abcdefgh"`, size 3, overlap 1. -/
theorem chunkText_coverage_witness :
    chunkText (String.toList "abcdefgh") ((3 : Nat) : Int) ((1 : Nat) : Int)
      = some (chunksOf 3 1 (String.toList "abcdefgh"))
    ∧ glue 1 (chunksOf 3 1 (String.toList "abcdefgh"))
      = String.toList "abcdefgh"
    ∧ (chunksOf 3 1 (String.toList "abcdefgh") = []
        ↔ String.toList "abcdefgh" = []) :=
  chunkText_coverage (String.toList "abcdefgh") 3 1 (by decide) (by decide)

/-- Claim C5 (corrected).  The end-to-end example: the 46-character text
chunked at size 20, overlap 5 gives windows `[0,20)`, `[15,35)`, `[30,46)`,
i.e. the middle chunk is `". Water is wet. Gras"` and the last one
`" Grass is green."`. -/
theorem chunkText_example :
    chunkText
      (String.toList "The sky is blue. Water is wet. Grass is green.") 20 5
    = some [String.toList "The sky is blue. Wat",
        String.toList ". Water is wet. Gras",
        String.toList " Grass is green."] := by
  decide

/-- Counterexample to claim C5 as stated: the chunk list the specification
names (middle chunk `"t. Water is wet. Gra"`, last chunk
`"Grass is green."`) is not what the code returns. -/
theorem chunkText_example_counterexample :
    chunkText
      (String.toList "The sky is blue. Water is wet. Grass is green.") 20 5
    ≠ some [String.toList "The sky is blue. Wat",
        String.toList "t. Water is wet. Gra",
        String.toList "Grass is green."] := by
  decide

/-- Claim C7.  For valid parameters: chunk `i+1` begins at
`min(end_i - overlap, L)` (the `min` is inert since `end_i < L` whenever a
next chunk exists), the final chunk ends exactly at offset `L`, and no
chunk is empty. -/
theorem chunkText_offsets (text : List Char) (size overlap : Nat)
    (hs : 0 < size) (ho : overlap < size) :
    chunkText text (size : Int) (overlap : Int)
      = some (chunksOf size overlap text)
    ∧ List.Chain' (fun p q => q.1 = min (p.2 - overlap) text.length)
        (spans size overlap text.length 0)
    ∧ (0 < text.length →
        ∃ p, (spans size overlap text.length 0).getLast? = some p
          ∧ p.2 = text.length)
    ∧ (∀ c ∈ chunksOf size overlap text, c ≠ []) := by
  refine ⟨chunkText_eq_chunksOf text size overlap hs ho, ?_, ?_, ?_⟩
  · refine (spans_chain size overlap ho text.length 0).imp ?_
    intro p q hpq
    rw [hpq.1, min_eq_left (by omega)]
  · intro hL
    exact spans_getLast? size overlap ho text.length 0 hL
  · intro c hc
    unfold chunksOf at hc
    obtain ⟨p, hp, hcp⟩ := List.mem_map.mp hc
    obtain ⟨h1, h2⟩ := spans_mem_bounds size overlap ho text.length 0 p hp
    subst hcp
    apply List.ne_nil_of_length_pos
    simp [chunkSlice]
    omega

/-- Witness for claim C7's theorem at text `"abcdefgh"`, size 3, overlap 1. -/
theorem chunkText_offsets_witness :
    chunkText (String.toList "abcdefgh") ((3 : Nat) : Int) ((1 : Nat) : Int)
      = some (chunksOf 3 1 (String.toList "abcdefgh"))
    ∧ List.Chain' (fun p q => q.1 = min (p.2 - 1)
        (String.toList "abcdefgh").length)
        (spans 3 1 (String.toList "abcdefgh").length 0)
    ∧ (0 < (String.toList "abcdefgh").length →
        ∃ p, (spans 3 1 (String.toList "abcdefgh").length 0).getLast? = some p
          ∧ p.2 = (String.toList "abcdefgh").length)
    ∧ (∀ c ∈ chunksOf 3 1 (String.toList "abcdefgh"), c ≠ []) :=
  chunkText_offsets (String.toList "abcdefgh") 3 1 (by decide) (by decide)

/-- Claim C8.  For valid parameters the source loop terminates — within the
`text.length + 1` fuel bound — and each window starts exactly
`size - overlap` characters after the previous one, a positive stride. -/
theorem chunkText_terminates (text : List Char) (size overlap : Nat)
    (hs : 0 < size) (ho : overlap < size) :
    (∃ cs, chunkText text (size : Int) (overlap : Int) = some cs)
    ∧ 0 < size - overlap
    ∧ List.Chain' (fun p q => q.1 = p.1 + (size - overlap))
        (spans size overlap text.length 0) := by
  refine ⟨⟨chunksOf size overlap text,
    chunkText_eq_chunksOf text size overlap hs ho⟩, by omega, ?_⟩
  refine (spans_chain size overlap ho text.length 0).imp ?_
  intro p q hpq
  exact hpq.2.1

/-- Witness for claim C8's theorem at text `"abcdefgh"`, size 3, overlap 1. -/
theorem chunkText_terminates_witness :
    (∃ cs, chunkText (String.toList "abcdefgh") ((3 : Nat) : Int)
      ((1 : Nat) : Int) = some cs)
    ∧ 0 < 3 - 1
    ∧ List.Chain' (fun p q => q.1 = p.1 + (3 - 1))
        (spans 3 1 (String.toList "abcdefgh").length 0) :=
  chunkText_terminates (String.toList "abcdefgh") 3 1 (by decide) (by decide)

/-! ## Claim theorems: the RelevanceSelector -/

/-- `jsIncludes` is substring containment. -/
lemma jsIncludes_substring (hay needle : List Char) :
    jsIncludes hay needle = true ↔ needle <:+: hay := by
  induction hay with
  | nil =>
    rw [jsIncludes]
    simp [List.isPrefixOf_iff_prefix]
  | cons c t ih =>
    rw [jsIncludes]
    simp only [Bool.or_eq_true, List.isPrefixOf_iff_prefix, ih,
      List.infix_cons_iff]

/-- Claim C1 (corrected).  When any sentence matches, `findRelevantContent`
returns the first at most three sentences that contain at least one
question keyword, joined with `". "` and a final `"."`; the selected
sentences are a subsequence of the sentence split (original candidate
order, regardless of how many keywords each sentence matches), and each of
them contains at least one keyword. -/
theorem findRelevantContent_selection (question documentContext : List Char)
    (h : relevantSentences question documentContext ≠ []) :
    findRelevantContent question documentContext
      = List.intercalate (String.toList ". ")
          ((relevantSentences question documentContext).take 3) ++ ['.']
    ∧ ((relevantSentences question documentContext).take 3).Sublist
        (sentencesOf documentContext)
    ∧ ((relevantSentences question documentContext).take 3).length ≤ 3
    ∧ ∀ s ∈ (relevantSentences question documentContext).take 3,
        sentenceMatches question s = true := by
  refine ⟨?_, ?_, ?_, ?_⟩
  · simp only [findRelevantContent]
    rw [if_pos]
    simpa using List.length_pos.mpr h
  · exact (List.take_sublist 3 _).trans (List.filter_sublist _)
  · exact List.length_take_le 3 _
  · intro s hs_
    exact List.of_mem_filter (List.mem_of_mem_take hs_)

/-- Witness for claim C1's theorem on the question `"alpha beta"` over the
context `"xx alpha xx. yy alpha beta yy."`. -/
theorem findRelevantContent_selection_witness :
    relevantSentences (String.toList "alpha beta")
        (String.toList "xx alpha xx. yy alpha beta yy.") ≠ []
    ∧ (findRelevantContent (String.toList "alpha beta")
          (String.toList "xx alpha xx. yy alpha beta yy.")
        = List.intercalate (String.toList ". ")
            ((relevantSentences (String.toList "alpha beta")
              (String.toList "xx alpha xx. yy alpha beta yy.")).take 3)
          ++ ['.']
      ∧ ((relevantSentences (String.toList "alpha beta")
          (String.toList "xx alpha xx. yy alpha beta yy.")).take 3).Sublist
          (sentencesOf (String.toList "xx alpha xx. yy alpha beta yy."))
      ∧ ((relevantSentences (String.toList "alpha beta")
          (String.toList "xx alpha xx. yy alpha beta yy.")).take 3).length ≤ 3
      ∧ ∀ s ∈ (relevantSentences (String.toList "alpha beta")
          (String.toList "xx alpha xx. yy alpha beta yy.")).take 3,
          sentenceMatches (String.toList "alpha beta") s = true) :=
  ⟨by decide, findRelevantContent_selection (String.toList "alpha beta")
    (String.toList "xx alpha xx. yy alpha beta yy.") (by decide)⟩

/-- Counterexample to claim C1 as stated: on the question `"alpha beta"`
over `"xx alpha xx. yy alpha beta yy."` the code returns the sentence
matching one keyword of two before the sentence matching both, so the
output is not ordered by descending score `matched / total`. -/
theorem findRelevantContent_order_counterexample :
    relevantSentences (String.toList "alpha beta")
        (String.toList "xx alpha xx. yy alpha beta yy.")
      = [String.toList "xx alpha xx", String.toList " yy alpha beta yy"]
    ∧ findRelevantContent (String.toList "alpha beta")
        (String.toList "xx alpha xx. yy alpha beta yy.")
      = String.toList "xx alpha xx.  yy alpha beta yy."
    ∧ specScore (String.toList "alpha beta") (String.toList "xx alpha xx")
        < specScore (String.toList "alpha beta")
          (String.toList " yy alpha beta yy")
    ∧ ¬ List.Sorted (fun a b => b ≤ a)
        (((relevantSentences (String.toList "alpha beta")
            (String.toList "xx alpha xx. yy alpha beta yy.")).take 3).map
          (specScore (String.toList "alpha beta"))) := by
  have e1 : ((keywords (String.toList "alpha beta")).filter
      (fun keyword => jsIncludes (lowerStr (String.toList "xx alpha xx"))
        keyword)).length = 1 := by decide
  have e2 : ((keywords (String.toList "alpha beta")).filter
      (fun keyword => jsIncludes (lowerStr (String.toList " yy alpha beta yy"))
        keyword)).length = 2 := by decide
  have e3 : (keywords (String.toList "alpha beta")).length = 2 := by decide
  have hlt : specScore (String.toList "alpha beta")
      (String.toList "xx alpha xx")
      < specScore (String.toList "alpha beta")
        (String.toList " yy alpha beta yy") := by
    unfold specScore
    rw [e1, e2, e3]
    norm_num
  refine ⟨by decide, by decide, hlt, ?_⟩
  intro hsort
  rw [(by decide : (relevantSentences (String.toList "alpha beta")
      (String.toList "xx alpha xx. yy alpha beta yy.")).take 3
    = [String.toList "xx alpha xx", String.toList " yy alpha beta yy"])]
    at hsort
  simp only [List.map_cons, List.map_nil, List.sorted_cons,
    List.mem_singleton, forall_eq, List.sorted_singleton, and_true] at hsort
  exact absurd hsort.1 (not_le.mpr hlt)

/-- Claim C10.  Keyword matching is plain case-insensitive substring
containment: any sentence of the split whose lower-cased text contains a
question keyword as a substring — whole word or not — is selected into
`relevantSentences`. -/
theorem keyword_substring_match (question documentContext sentence : List Char)
    (hmem : sentence ∈ sentencesOf documentContext)
    (hsub : ∃ k ∈ keywords question, k <:+: lowerStr sentence) :
    sentence ∈ relevantSentences question documentContext := by
  unfold relevantSentences
  apply List.mem_filter.mpr
  refine ⟨hmem, ?_⟩
  unfold sentenceMatches
  rw [List.any_eq_true]
  obtain ⟨k, hk1, hk2⟩ := hsub
  exact ⟨k, hk1, (jsIncludes_substring _ _).mpr hk2⟩

/-- Witness for claim C10's theorem: the keyword `"green"` occurs only
inside the longer word `"evergreens"`, yet the sentence is selected. -/
theorem keyword_substring_match_witness :
    String.toList "We planted evergreens"
      ∈ sentencesOf (String.toList "We planted evergreens")
    ∧ (∃ k ∈ keywords (String.toList "lawn green"),
        k <:+: lowerStr (String.toList "We planted evergreens"))
    ∧ String.toList "We planted evergreens"
      ∈ relevantSentences (String.toList "lawn green")
        (String.toList "We planted evergreens") :=
  ⟨by decide, ⟨String.toList "green", by decide, by decide⟩,
    keyword_substring_match (String.toList "lawn green")
      (String.toList "We planted evergreens")
      (String.toList "We planted evergreens") (by decide)
      ⟨String.toList "green", by decide, by decide⟩⟩

/-- Claim C6 (corrected).  When no sentence of the built document context
matches any keyword, `findRelevantContent` returns a single combined
fallback string — the first 300 characters of the joined context (which
includes the `Document:`/`Content:` headers), followed by `"..."` — and
never an empty result; it does not return one truncated match per source. -/
theorem findRelevantContent_fallback (question : List Char)
    (files : List (List Char × List Char))
    (h : relevantSentences question (buildDocumentContext files) = []) :
    findRelevantContent question (buildDocumentContext files)
      = (buildDocumentContext files).take 300 ++ String.toList "..."
    ∧ findRelevantContent question (buildDocumentContext files) ≠ [] := by
  have h1 : findRelevantContent question (buildDocumentContext files)
      = (buildDocumentContext files).take 300 ++ String.toList "..." := by
    simp only [findRelevantContent]
    rw [h]
    simp
  refine ⟨h1, ?_⟩
  rw [h1]
  simp

/-- Witness for claim C6's theorem: the question `"????"` has the single
keyword `"????"`, which no sentence contains. -/
theorem findRelevantContent_fallback_witness :
    relevantSentences (String.toList "????")
        (buildDocumentContext
          [(String.toList "doc1", String.toList "short")]) = []
    ∧ (findRelevantContent (String.toList "????")
          (buildDocumentContext
            [(String.toList "doc1", String.toList "short")])
        = (buildDocumentContext
            [(String.toList "doc1", String.toList "short")]).take 300
          ++ String.toList "..."
      ∧ findRelevantContent (String.toList "????")
          (buildDocumentContext
            [(String.toList "doc1", String.toList "short")]) ≠ []) :=
  ⟨by decide, findRelevantContent_fallback (String.toList "????")
    [(String.toList "doc1", String.toList "short")] (by decide)⟩

/-- Counterexample to claim C6 as stated: for the single source
`("doc1", "short")` and the keyword-free question `"????"`, the fallback is
`"Document: doc1\nContent: short..."` — the truncated joined context with
its headers — not the first 300 characters `"short"` of the source's own
text, and there is no per-source match list. -/
theorem findRelevantContent_fallback_counterexample :
    findRelevantContent (String.toList "????")
        (buildDocumentContext [(String.toList "doc1", String.toList "short")])
      = String.toList "Document: doc1\nContent: short..."
    ∧ String.toList "Document: doc1\nContent: short..."
      ≠ String.toList "short" := by
  constructor <;> decide

/-! ## Claim theorems: the ContextAssembler -/

/-- Claim C9.  An empty or missing document context takes the placeholder
branch: the system prompt carries the `"No documents have been uploaded"`
note and zero document blocks, while a nonempty context carries the header
and the joined blocks; the ChatInterface caller's no-documents reply is
likewise a fixed nonempty message rather than blank context. -/
theorem contextAssembly_empty :
    buildSystemContent none = systemPromptBase ++ noDocumentsNote
    ∧ buildSystemContent (some []) = systemPromptBase ++ noDocumentsNote
    ∧ (∀ blocks, blocks ≠ [] → buildSystemContent (some blocks)
        = systemPromptBase ++ documentContextHeader
          ++ String.intercalate "\n\n---\n\n" blocks)
    ∧ noDocumentsResponse ≠ "" := by
  refine ⟨rfl, rfl, ?_, by decide⟩
  intro blocks hb
  show (if blocks.length > 0 then
      systemPromptBase ++ documentContextHeader
        ++ String.intercalate "\n\n---\n\n" blocks
    else systemPromptBase ++ noDocumentsNote) = _
  rw [if_pos]
  simpa using List.length_pos.mpr hb

/-- Witness for claim C9's theorem at the one-block context `["doc"]`. -/
theorem contextAssembly_empty_witness :
    buildSystemContent (some [("doc" : String)])
      = systemPromptBase ++ documentContextHeader
        ++ String.intercalate "\n\n---\n\n" [("doc" : String)] :=
  contextAssembly_empty.2.2.1 [("doc" : String)] (by simp)

end SimpleBuildBot
